import Mathlib

/-!
# Verification of the Stock Pilot voice-inventory engine

Shallow embedding of the inventory-management web application
(`src/components/Inventory.tsx`, `src/services/gemini.ts`, the Firebase
record-store service) together with proofs of the specified properties.

Conventions of the embedding:
* JavaScript numbers are modelled as `Rat` (every numeric value exercised by
  the specification is an exact decimal).
* Fallible operations are modelled in `Except String`, where `Except.error m`
  stands for a thrown/rejected value carrying message `m`.
* The Firestore collection of one user is modelled as a list of records plus
  a fresh-id counter; `addDoc` appends with a fresh id, `updateDoc` maps over
  the list keyed by the document id, `deleteDoc` filters the id out.
-/

namespace StockPilot

/-! ## String lowercasing

`String.prototype.toLowerCase` as applied to the ASCII item names handled by
this application: each character in `A`..`Z` is shifted down by 32.  Lean's
`Char.toLower` performs exactly this ASCII shift. -/

/-- Model of JavaScript `name.toLowerCase()` on item names: lowercase every
character (ASCII shift, `Char.toLower`). -/
def toLowerCase (s : String) : String := ⟨s.data.map Char.toLower⟩

/-- Coordinate form of `Char.ofNat` at a valid code point. -/
lemma char_toNat_ofNat {n : Nat} (h : n.isValidChar) : (Char.ofNat n).toNat = n := by
  simp only [Char.ofNat, dif_pos h, Char.ofNatAux, Char.toNat]
  rfl

/-- Characters are determined by their code points. -/
lemma char_eq_of_toNat_eq {c d : Char} (h : c.toNat = d.toNat) : c = d :=
  Char.eq_of_val_eq (UInt32.ext h)

/-- Lowercasing a character twice is the same as lowercasing it once. -/
lemma toLower_idem (c : Char) : c.toLower.toLower = c.toLower := by
  unfold Char.toLower
  by_cases h : c.toNat ≥ 65 ∧ c.toNat ≤ 90
  · rw [if_pos h]
    have hv : (c.toNat + 32).isValidChar := Or.inl (by omega)
    have ht : (Char.ofNat (c.toNat + 32)).toNat = c.toNat + 32 := char_toNat_ofNat hv
    rw [if_neg (by omega)]
  · rw [if_neg h, if_neg h]

/-- Lowercasing a string twice is the same as lowercasing it once. -/
lemma toLowerCase_idem (s : String) : toLowerCase (toLowerCase s) = toLowerCase s := by
  simp only [toLowerCase, List.map_map]
  exact congrArg String.mk (List.map_congr_left fun c _ => toLower_idem c)

/-! ## Record store (`src/services/firebase.ts`, appended to `Inventory.tsx`)

One user's inventory collection.  `quantity` and `pricePerItem` are numbers in
every record these operations create, so the defensive JavaScript
`(existingItem.quantity || 0)` is the identity here and is translated as the
plain field access. -/

/-- One Firestore inventory document (interface `InventoryItem`). -/
structure InventoryItem where
  id : Nat
  name : String
  quantity : Rat
  pricePerItem : Rat
deriving DecidableEq

/-- One user's inventory collection plus the id supply of `addDoc`. -/
structure Store where
  items : List InventoryItem
  nextId : Nat
deriving DecidableEq

/-- A store holding no documents. -/
def emptyStore : Store := { items := [], nextId := 0 }

/-- `findItemByName`: query the collection for documents whose `name` field
equals `name.toLowerCase()` exactly, returning the first hit
(`querySnapshot.docs[0]`) or `null`. -/
def findItemByName (s : Store) (name : String) : Option InventoryItem :=
  s.items.find? fun it => it.name == toLowerCase name

/-- `addItem`: upsert by `findItemByName`.  When the item exists, its quantity
becomes `existingItem.quantity + item.quantity` and its price is overwritten
(`updateDoc`); otherwise a new document is appended with the lowercased name
(`addDoc`). -/
def addItem (s : Store) (name : String) (quantity pricePerItem : Rat) :
    String × Store :=
  match findItemByName s name with
  | some existingItem =>
    let newQuantity := existingItem.quantity + quantity
    ("Updated " ++ name ++ " quantity to " ++ toString newQuantity ++ ".",
     { s with items := s.items.map fun it =>
         if it.id = existingItem.id then
           { it with quantity := newQuantity, pricePerItem := pricePerItem }
         else it })
  | none =>
    ("Added " ++ toString quantity ++ " of " ++ name ++ ".",
     { items := s.items ++
         [{ id := s.nextId, name := toLowerCase name,
            quantity := quantity, pricePerItem := pricePerItem }],
       nextId := s.nextId + 1 })

/-- `removeItem`: not-found text when absent; delete the document
(`deleteDoc`) when the decremented quantity is `≤ 0`; otherwise update the
quantity (`updateDoc`). -/
def removeItem (s : Store) (itemName : String) (quantity : Rat) :
    String × Store :=
  match findItemByName s itemName with
  | none => ("Item " ++ itemName ++ " not found in inventory.", s)
  | some existingItem =>
    let newQuantity := existingItem.quantity - quantity
    if newQuantity ≤ 0 then
      ("Removed all " ++ itemName ++ " from inventory.",
       { s with items := s.items.filter fun it => it.id != existingItem.id })
    else
      ("Removed " ++ toString quantity ++ " of " ++ itemName ++
         ". New quantity is " ++ toString newQuantity ++ ".",
       { s with items := s.items.map fun it =>
           if it.id = existingItem.id then { it with quantity := newQuantity }
           else it })

/-- A mutation of the record store reachable through the voice tools. -/
inductive StoreOp where
  | add (name : String) (quantity pricePerItem : Rat)
  | remove (name : String) (quantity : Rat)

/-- State effect of one store operation. -/
def applyOp (s : Store) : StoreOp → Store
  | StoreOp.add n q p => (addItem s n q p).2
  | StoreOp.remove n q => (removeItem s n q).2

/-- Run a sequence of store operations from a starting state. -/
def runOps (s : Store) (ops : List StoreOp) : Store := ops.foldl applyOp s

/-- Invariant: every stored name equals its own lowercase form. -/
def lowercaseNames (s : Store) : Prop :=
  ∀ it ∈ s.items, it.name = toLowerCase it.name

/-! ## Playback scheduler (`onLiveMessage` in `Inventory.tsx`)

The audio-chunk branch of `onLiveMessage` keeps `nextStartTimeRef` (the next
free instant on the output clock) and `audioSourcesRef` (the set of scheduled
`AudioBufferSourceNode`s, modelled by their ids).  Times and durations are
rationals on the monotonic output clock (`ctx.currentTime`). -/

/-- Playback state held in the refs of `Inventory.tsx`. -/
structure PlaybackState where
  nextStartTime : Rat
  audioSources : List Nat
  nextSourceId : Nat
deriving DecidableEq

/-- Ref state before any playback: `nextStartTimeRef` starts at `0`, no
sources scheduled. -/
def initialPlayback : PlaybackState :=
  { nextStartTime := 0, audioSources := [], nextSourceId := 0 }

/-- Audio-chunk branch of `onLiveMessage`:
`nextStartTimeRef.current = Math.max(nextStartTimeRef.current, ctx.currentTime)`;
`source.start(nextStartTimeRef.current)`;
`nextStartTimeRef.current += audioBuffer.duration`;
`audioSourcesRef.current.add(source)`.
Returns the start time passed to `source.start` together with the new state. -/
def enqueue (st : PlaybackState) (now duration : Rat) : Rat × PlaybackState :=
  let startTime := max st.nextStartTime now
  (startTime,
   { nextStartTime := startTime + duration,
     audioSources := st.audioSources ++ [st.nextSourceId],
     nextSourceId := st.nextSourceId + 1 })

/-- Interruption branch of `onLiveMessage`:
`audioSourcesRef.current.forEach(source => source.stop())`;
`audioSourcesRef.current.clear()`; `nextStartTimeRef.current = 0`.
Returns the list of sources that received `stop()` with the new state. -/
def interrupt (st : PlaybackState) : List Nat × PlaybackState :=
  (st.audioSources, { st with audioSources := [], nextStartTime := 0 })

/-- Process a sequence of audio chunks `(ctx.currentTime, buffer.duration)`
with no interruption in between, collecting the start time of each chunk. -/
def runEnqueues : PlaybackState → List (Rat × Rat) → List Rat
  | _, [] => []
  | st, c :: rest =>
    let r := enqueue st c.1 c.2
    r.1 :: runEnqueues r.2 rest

/-! ## Tool-call dispatcher (`handleToolResponse` in `Inventory.tsx`)

The backend record-store operations are asynchronous Firebase calls that can
reject; they are modelled as `Except String String` values (error = thrown
exception with its `message`). -/

/-- Arguments destructured from `toolCall.args`. -/
structure ToolArgs where
  name : String
  quantity : Rat
  pricePerItem : Rat
deriving DecidableEq

/-- One function call delivered in a `toolCall` message. -/
structure ToolCall where
  id : String
  name : String
  args : ToolArgs
deriving DecidableEq

/-- The external record-store interface as seen by the dispatcher: each
operation either produces a result text or throws. -/
structure RecordStore where
  add_item : String → Rat → Rat → Except String String
  remove_item : String → Rat → Except String String
  get_item_details : String → Except String String
  get_inventory_summary : Except String String

/-- `handleToolResponse`: the `if`/`else if` chain over `toolCall.name` runs
inside `try { ... } catch (e) { result = "Error executing function: " + e.message }`,
with the final `else` producing the unknown-function text.  The function is
total: dispatch always yields exactly one result string. -/
def handleToolResponse (backend : RecordStore) (toolCall : ToolCall) : String :=
  let attempt : Except String String :=
    if toolCall.name = "add_item" then
      backend.add_item toolCall.args.name toolCall.args.quantity toolCall.args.pricePerItem
    else if toolCall.name = "remove_item" then
      backend.remove_item toolCall.args.name toolCall.args.quantity
    else if toolCall.name = "get_item_details" then
      backend.get_item_details toolCall.args.name
    else if toolCall.name = "get_inventory_summary" then
      backend.get_inventory_summary
    else
      Except.ok ("Unknown function: " ++ toolCall.name)
  match attempt with
  | Except.ok r => r
  | Except.error e => "Error executing function: " ++ e

/-! ## Session controller (`startListening` / `stopListening` in `Inventory.tsx`)

Resource refs are `Option Nat` handles (`none` = the ref holds `null`).
`Except.error m` models an exception/rejection escaping the function. -/

/-- The component refs and status state of `Inventory.tsx`. -/
structure Controller where
  isListening : Bool
  assistantStatus : String
  sessionPromise : Option Nat
  mediaStream : Option Nat
  audioContext : Option Nat
  scriptProcessor : Option Nat
  outputAudioContext : Option Nat
  audioSources : List Nat
  nextStartTime : Rat
deriving DecidableEq

/-- Component state on mount: not listening, status `'Click mic to start'`,
every ref `null`. -/
def initialController : Controller :=
  { isListening := false, assistantStatus := "Click mic to start",
    sessionPromise := none, mediaStream := none, audioContext := none,
    scriptProcessor := none, outputAudioContext := none,
    audioSources := [], nextStartTime := 0 }

/-- One optional-chained release step of `stopListening`
(`ref.current?.stop() / ?.disconnect() / ?.close().catch(...)`): on a `null`
ref nothing runs, and the release calls themselves do not throw (context
close rejections are swallowed by `.catch(console.error)`). -/
def optRelease (r : Option Nat) : Except String Unit :=
  match r with
  | none => Except.ok ()
  | some _ => Except.ok ()

/-- `stopListening`: early return when `sessionPromiseRef.current` is `null`;
otherwise run every optional-chained release step, clear the source set, and
null out all refs, resetting the status. -/
def stopListening (c : Controller) : Except String Controller :=
  if c.sessionPromise.isNone then
    Except.ok c
  else do
    let _ ← optRelease c.mediaStream        -- mediaStreamRef.current?.getTracks().forEach(stop)
    let _ ← optRelease c.scriptProcessor    -- scriptProcessorRef.current?.disconnect()
    let _ ← optRelease c.audioContext       -- audioContextRef.current?.close().catch(...)
    let _ ← optRelease c.sessionPromise     -- sessionPromiseRef.current?.then(close)
    let _ ← optRelease c.outputAudioContext -- outputAudioContextRef.current?.close().catch(...)
    Except.ok { isListening := false, assistantStatus := "Click mic to start",
                sessionPromise := none, mediaStream := none, audioContext := none,
                scriptProcessor := none, outputAudioContext := none,
                audioSources := [], nextStartTime := 0 }

/-- `startListening`, parameterised by the outcome of `await playGreeting()`
and of `navigator.mediaDevices.getUserMedia` (the body of the `try`).  The
greeting await sits before and outside the `try`/`catch`, so its rejection
propagates out of `startListening`; only the `try` body's failures reach the
`catch`, which sets the status text and turns listening off. -/
def startListening (c : Controller) (greeting : Except String Unit)
    (mic : Except String Nat) : Except String Controller :=
  -- setIsListening(true); setAssistantStatus('Starting...')
  let c1 := { c with isListening := true, assistantStatus := "Starting..." }
  match greeting with
  | Except.error e => Except.error e        -- await playGreeting() rejects: uncaught
  | Except.ok _ =>
    -- setAssistantStatus('Listening...')
    let c2 := { c1 with assistantStatus := "Listening..." }
    match mic with
    | Except.error _ =>
      -- catch: setAssistantStatus('Mic permission needed.'); setIsListening(false)
      Except.ok { c2 with assistantStatus := "Mic permission needed.",
                          isListening := false }
    | Except.ok stream =>
      -- acquire the stream, contexts, processor, and open the live session
      Except.ok { c2 with mediaStream := some stream, audioContext := some 0,
                          scriptProcessor := some 0, sessionPromise := some 0 }

/-- Component state left behind when `await playGreeting()` rejects during
`start()`: the two state updates before the await have run (listening flag
raised, status `'Starting...'`) but no session or device was ever acquired.
`start()` never successfully completed, yet the controller is not idle. -/
def greetingFailureState : Controller :=
  { isListening := true, assistantStatus := "Starting...",
    sessionPromise := none, mediaStream := none, audioContext := none,
    scriptProcessor := none, outputAudioContext := none,
    audioSources := [], nextStartTime := 0 }

/-! ## Capture pipeline (`onaudioprocess` in `startListening`)

`int16[i] = inputData[i] * 32768` assigns a JavaScript number to an
`Int16Array` slot, which applies the ECMAScript `ToInt16` conversion:
truncate toward zero, reduce modulo 2^16, then reinterpret in
[-2^15, 2^15). -/

/-- Truncation toward zero of a rational (the ECMAScript `ToIntegerOrInfinity`
step on a finite number). -/
def truncQ (x : Rat) : Int := if 0 ≤ x then ⌊x⌋ else ⌈x⌉

/-- ECMAScript `ToInt16`: truncate, wrap modulo 2^16 into the signed 16-bit
range. -/
def toInt16 (x : Rat) : Int :=
  let i := truncQ x
  let i16 := i % 65536
  if 32768 ≤ i16 then i16 - 65536 else i16

/-- Value stored for one captured sample: `int16[i] = inputData[i] * 32768`. -/
def captureSample (sample : Rat) : Int := toInt16 (sample * 32768)

/-- MIME tag attached to every outbound chunk:
`sendRealtimeInput({ media: { data, mimeType: 'audio/pcm;rate=16000' } })`. -/
def captureMimeType : String := "audio/pcm;rate=16000"

/-! ## Codec utilities

Modelled from the spec: the module `src/utils/audio` (functions `encode`,
`decode`, `decodeAudioData`) is imported by `Inventory.tsx` and `gemini.ts`
but its source is not in the repository snapshot.  The spec requires only a
deterministic, reversible, transport-safe text encoding of arbitrary byte
sequences whose `decode` is the exact inverse and fails with a `DecodeError`
on malformed input; it is realised here as hexadecimal byte encoding. -/

/-- Failure raised by `decode` on malformed input. -/
inductive DecodeError where
  | malformed
deriving DecidableEq

/-- Numeric value of one lowercase hexadecimal digit character. -/
def hexVal (c : Char) : Option Nat :=
  if 48 ≤ c.toNat ∧ c.toNat ≤ 57 then some (c.toNat - 48)
  else if 97 ≤ c.toNat ∧ c.toNat ≤ 102 then some (c.toNat - 87)
  else none

/-- Two hexadecimal digit characters per byte. -/
def encodeBytes : List Nat → List Char
  | [] => []
  | b :: bs => Nat.digitChar (b / 16) :: Nat.digitChar (b % 16) :: encodeBytes bs

/-- Modelled from the spec: `encode(bytes) -> text`, a deterministic
reversible transport-safe text encoding. -/
def encode (bytes : List Nat) : String := ⟨encodeBytes bytes⟩

/-- Parse pairs of hexadecimal digits, rejecting odd length and any
character outside the encoding alphabet. -/
def decodeChars : List Char → Except DecodeError (List Nat)
  | [] => Except.ok []
  | [_] => Except.error DecodeError.malformed
  | c1 :: c2 :: rest =>
    match hexVal c1, hexVal c2 with
    | some h, some l =>
      match decodeChars rest with
      | Except.ok bs => Except.ok ((16 * h + l) :: bs)
      | Except.error e => Except.error e
    | _, _ => Except.error DecodeError.malformed

/-- Modelled from the spec: `decode(text) -> bytes`, inverse of `encode`,
failing with `DecodeError` on malformed input. -/
def decode (s : String) : Except DecodeError (List Nat) := decodeChars s.data

/-- A stub record store whose `add_item` throws, used to exercise the
dispatcher's catch-all conversion. -/
def stubBackend : RecordStore :=
  { add_item := fun _ _ _ => Except.error "boom",
    remove_item := fun _ _ => Except.ok "removed",
    get_item_details := fun _ => Except.ok "details",
    get_inventory_summary := Except.ok "summary" }

/-! ## Playback scheduler lemmas -/

/-- One start time is produced per enqueued chunk. -/
lemma runEnqueues_length (st : PlaybackState) (chunks : List (Rat × Rat)) :
    (runEnqueues st chunks).length = chunks.length := by
  induction chunks generalizing st with
  | nil => rfl
  | cons c rest ih => simp [runEnqueues, ih]

/-- The first start time of a run is at least the pending free time. -/
lemma runEnqueues_head_ge (st : PlaybackState) (c : Rat × Rat)
    (rest : List (Rat × Rat)) :
    st.nextStartTime ≤ (runEnqueues st (c :: rest)).getD 0 0 := by
  simp only [runEnqueues, enqueue, List.getD_cons_zero]
  exact le_max_left _ _

/-- Consecutive start times are separated by at least the earlier chunk's
duration. -/
lemma runEnqueues_step (chunks : List (Rat × Rat)) :
    ∀ (st : PlaybackState) (k : Nat), k + 1 < chunks.length →
      (runEnqueues st chunks).getD k 0 + (chunks.getD k (0, 0)).2 ≤
        (runEnqueues st chunks).getD (k + 1) 0 := by
  induction chunks with
  | nil => intro st k hk; simp at hk
  | cons c rest ih =>
    intro st k hk
    match k with
    | 0 =>
      have hr : rest ≠ [] := by
        simp only [List.length_cons] at hk
        exact List.ne_nil_of_length_pos (by omega)

      match rest, hr with
      | c2 :: rest2, _ =>
        simp only [runEnqueues, enqueue, List.getD_cons_zero, List.getD_cons_succ]
        exact le_max_left _ _
    | Nat.succ k0 =>
      simp only [runEnqueues, List.getD_cons_succ]
      exact ih _ k0 (by simp only [List.length_cons] at hk; omega)

/-- C1: each buffer's start time is `max(next_free_time, output_clock.now())`
and `next_free_time` then advances by the buffer's duration; hence for any
uninterrupted sequence of enqueues with nonnegative durations the start times
satisfy `start(k+1) >= start(k) + d(k)` and are non-decreasing. -/
theorem c1_enqueue_back_to_back (st : PlaybackState) (chunks : List (Rat × Rat))
    (hdur : ∀ c ∈ chunks, 0 ≤ c.2) (k : Nat) (hk : k + 1 < chunks.length) :
    (∀ now d, (enqueue st now d).1 = max st.nextStartTime now) ∧
    (∀ now d, ((enqueue st now d).2).nextStartTime = (enqueue st now d).1 + d) ∧
    (runEnqueues st chunks).getD k 0 + (chunks.getD k (0, 0)).2 ≤
      (runEnqueues st chunks).getD (k + 1) 0 ∧
    (runEnqueues st chunks).getD k 0 ≤ (runEnqueues st chunks).getD (k + 1) 0 := by
  refine ⟨fun now d => rfl, fun now d => rfl, runEnqueues_step chunks st k hk, ?_⟩
  have h1 := runEnqueues_step chunks st k hk
  have h2 : 0 ≤ (chunks.getD k (0, 0)).2 := by
    have hklt : k < chunks.length := by omega
    rw [List.getD_eq_getElem _ _ hklt]
    exact hdur _ (List.getElem_mem hklt)
  linarith

/-- Witness for C1: three chunks of duration 1 arriving with clock readings
0, 2, 1; the second start time is at least the first plus its duration. -/
theorem c1_enqueue_back_to_back_witness :
    (runEnqueues initialPlayback [(0, 1), (2, 1), (1, 1)]).getD 0 0 +
      (([((0 : Rat), (1 : Rat)), (2, 1), (1, 1)]).getD 0 (0, 0)).2 ≤
      (runEnqueues initialPlayback [(0, 1), (2, 1), (1, 1)]).getD 1 0 :=
  (c1_enqueue_back_to_back initialPlayback [(0, 1), (2, 1), (1, 1)]
    (by decide) 0 (by decide)).2.2.1

/-- C2: the interruption branch stops every scheduled source, empties the
active set, and resets `next_free_time` to zero, so a buffer enqueued at any
later clock reading starts exactly at that reading, which is at or after the
interruption time. -/
theorem c2_interrupt_clears (st : PlaybackState) (tInterrupt now dur : Rat)
    (h0 : 0 ≤ tInterrupt) (hmono : tInterrupt ≤ now) :
    (interrupt st).1 = st.audioSources ∧
    (interrupt st).2.audioSources = [] ∧
    (interrupt st).2.nextStartTime = 0 ∧
    (enqueue (interrupt st).2 now dur).1 = now ∧
    tInterrupt ≤ (enqueue (interrupt st).2 now dur).1 := by
  refine ⟨rfl, rfl, rfl, ?_, ?_⟩
  · show max (0 : Rat) now = now
    exact max_eq_right (le_trans h0 hmono)
  · show tInterrupt ≤ max (0 : Rat) now
    exact le_trans hmono (le_max_right _ _)

/-- Witness for C2: an interruption at time 1 with two active sources,
followed by an enqueue at clock time 2. -/
theorem c2_interrupt_clears_witness :
    (interrupt ⟨5, [3, 4], 7⟩).1 = [3, 4] ∧
    (interrupt ⟨5, [3, 4], 7⟩).2.audioSources = [] ∧
    (interrupt ⟨5, [3, 4], 7⟩).2.nextStartTime = 0 ∧
    (enqueue (interrupt ⟨5, [3, 4], 7⟩).2 2 1).1 = 2 ∧
    (1 : Rat) ≤ (enqueue (interrupt ⟨5, [3, 4], 7⟩).2 2 1).1 :=
  c2_interrupt_clears ⟨5, [3, 4], 7⟩ 1 2 1 (by decide) (by decide)

/-- C3: `handleToolResponse` is a total function into result strings (dispatch
never raises and yields exactly one result); an unregistered name yields
`"Unknown function: <name>"`, and a backend operation that throws yields
`"Error executing function: <message>"`. -/
theorem c3_dispatch_total (backend : RecordStore) (toolCall : ToolCall) :
    (toolCall.name ∉
        ["add_item", "remove_item", "get_item_details", "get_inventory_summary"] →
      handleToolResponse backend toolCall = "Unknown function: " ++ toolCall.name) ∧
    (∀ m, toolCall.name = "add_item" →
      backend.add_item toolCall.args.name toolCall.args.quantity
          toolCall.args.pricePerItem = Except.error m →
      handleToolResponse backend toolCall = "Error executing function: " ++ m) ∧
    (∀ m, toolCall.name = "remove_item" →
      backend.remove_item toolCall.args.name toolCall.args.quantity =
          Except.error m →
      handleToolResponse backend toolCall = "Error executing function: " ++ m) ∧
    (∀ m, toolCall.name = "get_item_details" →
      backend.get_item_details toolCall.args.name = Except.error m →
      handleToolResponse backend toolCall = "Error executing function: " ++ m) ∧
    (∀ m, toolCall.name = "get_inventory_summary" →
      backend.get_inventory_summary = Except.error m →
      handleToolResponse backend toolCall = "Error executing function: " ++ m) := by
  refine ⟨?_, ?_, ?_, ?_, ?_⟩
  · intro hn
    simp only [List.mem_cons, List.not_mem_nil, or_false] at hn
    push_neg at hn
    obtain ⟨h1, h2, h3, h4⟩ := hn
    simp [handleToolResponse, h1, h2, h3, h4]
  · intro m hname herr
    simp [handleToolResponse, hname, herr]
  · intro m hname herr
    simp [handleToolResponse, hname, herr]
  · intro m hname herr
    simp [handleToolResponse, hname, herr]
  · intro m hname herr
    simp [handleToolResponse, hname, herr]

/-- Witness for C3: a throwing `add_item` backend call and an unregistered
tool name, each dispatched to a single result string. -/
theorem c3_dispatch_total_witness :
    handleToolResponse stubBackend
      { id := "1", name := "add_item",
        args := { name := "bolt", quantity := 5, pricePerItem := 2 } } =
      "Error executing function: boom" ∧
    handleToolResponse stubBackend
      { id := "2", name := "frobnicate",
        args := { name := "bolt", quantity := 5, pricePerItem := 2 } } =
      "Unknown function: frobnicate" :=
  ⟨(c3_dispatch_total stubBackend _).2.1 "boom" rfl rfl,
   (c3_dispatch_total stubBackend _).1 (by decide)⟩

/-- C4: `add_item` upserts by case-insensitive name.  When the lookup hits an
existing record, the result quantity is the old plus the new and the price is
overwritten; otherwise a new record is appended.  Under the lowercase-name
invariant, the lookup succeeds exactly when some record's name matches
case-insensitively.  Concretely, adding 5 bolts at 2 to an empty store
confirms 5 added, and a second add of 3 bolts at 5/2 yields quantity 8. -/
theorem c4_addItem_upsert (s : Store) (nm : String) (q p : Rat) :
    (∀ ex, findItemByName s nm = some ex →
      ex ∈ s.items ∧
      (addItem s nm q p).1 =
        "Updated " ++ nm ++ " quantity to " ++ toString (ex.quantity + q) ++ "." ∧
      ∃ it ∈ (addItem s nm q p).2.items,
        it.id = ex.id ∧ it.name = ex.name ∧ it.quantity = ex.quantity + q ∧
          it.pricePerItem = p) ∧
    (findItemByName s nm = none →
      (addItem s nm q p).1 = "Added " ++ toString q ++ " of " ++ nm ++ "." ∧
      (addItem s nm q p).2.items = s.items ++
        [{ id := s.nextId, name := toLowerCase nm, quantity := q,
           pricePerItem := p }]) ∧
    (lowercaseNames s →
      ((findItemByName s nm).isSome ↔
        ∃ it ∈ s.items, toLowerCase it.name = toLowerCase nm)) ∧
    (addItem emptyStore "bolt" 5 2).1 = "Added 5 of bolt." ∧
    (addItem (addItem emptyStore "bolt" 5 2).2 "bolt" 3 (5 / 2)).1 =
      "Updated bolt quantity to 8." ∧
    ∃ it ∈ (addItem (addItem emptyStore "bolt" 5 2).2 "bolt" 3 (5 / 2)).2.items,
      it.quantity = 8 ∧ it.pricePerItem = 5 / 2 := by
  have hs1 : (addItem emptyStore "bolt" 5 2).2 =
      { items := [{ id := 0, name := "bolt", quantity := 5, pricePerItem := 2 }],
        nextId := 1 } := by decide
  have hf1 : findItemByName
      { items := [{ id := 0, name := "bolt", quantity := 5, pricePerItem := 2 }],
        nextId := 1 } "bolt" =
      some { id := 0, name := "bolt", quantity := 5, pricePerItem := 2 } := by
    decide
  refine ⟨?_, ?_, ?_, ?_, ?_, ?_⟩
  · intro ex h
    have hmem : ex ∈ s.items := List.mem_of_find?_eq_some h
    refine ⟨hmem, ?_, ?_⟩
    · simp [addItem, h]
    · refine ⟨{ ex with quantity := ex.quantity + q, pricePerItem := p },
        ?_, rfl, rfl, rfl, rfl⟩
      simp only [addItem, h]
      have hmap := List.mem_map_of_mem
        (fun it => if it.id = ex.id then
          { it with quantity := ex.quantity + q, pricePerItem := p } else it) hmem
      simpa using hmap
  · intro h
    exact ⟨by simp [addItem, h], by simp [addItem, h]⟩
  · intro hinv
    rw [findItemByName, List.find?_isSome]
    simp only [beq_iff_eq]
    constructor
    · rintro ⟨it, hit, he⟩
      exact ⟨it, hit, by rw [he, toLowerCase_idem]⟩
    · rintro ⟨it, hit, he⟩
      exact ⟨it, hit, by rw [hinv it hit, he]⟩
  · have h : findItemByName emptyStore "bolt" = none := by decide
    simp only [addItem, h]
    decide
  · rw [hs1]
    simp only [addItem, hf1]
    have h8 : (5 : Rat) + 3 = 8 := by norm_num
    rw [h8]
    decide
  · rw [hs1]
    simp only [addItem, hf1, List.map_cons, List.map_nil]
    refine ⟨{ id := 0, name := "bolt", quantity := 5 + 3, pricePerItem := 5 / 2 },
      ?_, by norm_num, rfl⟩
    simp

/-- Witness for C4: adding 3 more at price 4 to a store holding 5 bolts, with
the upsert theorem applied at the matching record. -/
theorem c4_addItem_upsert_witness :
    (addItem
      { items := [{ id := 0, name := "bolt", quantity := 5, pricePerItem := 2 }],
        nextId := 1 } "Bolt" 3 4).1 =
      "Updated Bolt quantity to " ++ toString ((5 : Rat) + 3) ++ "." :=
  ((c4_addItem_upsert
    { items := [{ id := 0, name := "bolt", quantity := 5, pricePerItem := 2 }],
      nextId := 1 } "Bolt" 3 4).1
    { id := 0, name := "bolt", quantity := 5, pricePerItem := 2 } (by decide)).2.1

/-- C5: `remove_item` returns a not-found text and leaves the store unchanged
when the item is absent; deletes the record and confirms full removal when
the decremented quantity is at most zero; otherwise updates the quantity and
reports it. -/
theorem c5_removeItem_spec (s : Store) (nm : String) (q : Rat) :
    (findItemByName s nm = none →
      removeItem s nm q = ("Item " ++ nm ++ " not found in inventory.", s)) ∧
    (∀ ex, findItemByName s nm = some ex →
      (ex.quantity - q ≤ 0 →
        (removeItem s nm q).1 = "Removed all " ++ nm ++ " from inventory." ∧
        ∀ it ∈ (removeItem s nm q).2.items, it.id ≠ ex.id) ∧
      (0 < ex.quantity - q →
        (removeItem s nm q).1 = "Removed " ++ toString q ++ " of " ++ nm ++
          ". New quantity is " ++ toString (ex.quantity - q) ++ "." ∧
        ∃ it ∈ (removeItem s nm q).2.items,
          it.id = ex.id ∧ it.quantity = ex.quantity - q)) := by
  constructor
  · intro h
    simp [removeItem, h]
  · intro ex h
    have hmem : ex ∈ s.items := List.mem_of_find?_eq_some h
    constructor
    · intro hle
      refine ⟨by simp [removeItem, h, hle], ?_⟩
      intro it hit
      simp only [removeItem, h, if_pos hle] at hit
      have := (List.mem_filter.mp hit).2
      simpa using this
    · intro hpos
      have hnle : ¬ ex.quantity - q ≤ 0 := not_le.mpr hpos
      refine ⟨by simp [removeItem, h, hnle], ?_⟩
      refine ⟨{ ex with quantity := ex.quantity - q }, ?_, rfl, rfl⟩
      simp only [removeItem, h, if_neg hnle]
      have hmap := List.mem_map_of_mem
        (fun it => if it.id = ex.id then
          { it with quantity := ex.quantity - q } else it) hmem
      simpa using hmap

/-- Witness for C5: removing a missing item from a one-bolt store returns the
not-found text and the unchanged store. -/
theorem c5_removeItem_spec_witness :
    removeItem
      { items := [{ id := 0, name := "bolt", quantity := 5, pricePerItem := 2 }],
        nextId := 1 } "missing" 1 =
      ("Item missing not found in inventory.",
       { items := [{ id := 0, name := "bolt", quantity := 5, pricePerItem := 2 }],
         nextId := 1 }) :=
  (c5_removeItem_spec
    { items := [{ id := 0, name := "bolt", quantity := 5, pricePerItem := 2 }],
      nextId := 1 } "missing" 1).1 (by decide)

/-- C6 counterexample: a rejection of `await playGreeting()` during `start()`
escapes `startListening` uncaught (the await sits before the `try` block), so
not every failure occurring during start is caught and converted to a status
text. -/
theorem c6_counterexample :
    startListening initialController (Except.error "greeting playback failed")
      (Except.ok 0) = Except.error "greeting playback failed" := rfl

/-- C6 amended: a failure inside the `try` block of `start()` — in particular
a denied microphone permission — is caught and converted to the surfaced
status text `'Mic permission needed.'` with the controller back in the idle
(not-listening) state and no session opened; a greeting-playback failure,
however, is not caught and propagates out of `start()`. -/
theorem c6_start_error_handling (c : Controller) (e m : String)
    (mic : Except String Nat) :
    startListening c (Except.error e) mic = Except.error e ∧
    ∃ c', startListening c (Except.ok ()) (Except.error m) = Except.ok c' ∧
      c'.isListening = false ∧ c'.assistantStatus = "Mic permission needed." ∧
      c'.sessionPromise = c.sessionPromise ∧ c'.mediaStream = c.mediaStream :=
  ⟨rfl, ⟨_, rfl, rfl, rfl, rfl, rfl⟩⟩

/-- Every release step succeeds on any resource state: a `null` ref is
skipped by optional chaining and a held resource's release does not throw. -/
lemma optRelease_ok (r : Option Nat) : optRelease r = Except.ok () := by
  cases r <;> rfl

/-- C7 counterexample: the greeting-failure aftermath is a state in which
`start()` never successfully completed (no session, no devices acquired), yet
`stop()`'s early return leaves the controller with the listening flag still
raised and the status still `'Starting...'` — not the Idle status — refuting
the claim that `stop()` in every start-never-completed state leaves the
status Idle.  The state is the one `startListening` builds before the
greeting await. -/
theorem c7_counterexample :
    greetingFailureState =
      { initialController with
          isListening := true, assistantStatus := "Starting..." } ∧
    stopListening greetingFailureState = Except.ok greetingFailureState ∧
    greetingFailureState.sessionPromise = none ∧
    greetingFailureState.mediaStream = none ∧
    greetingFailureState.isListening = true ∧
    greetingFailureState.assistantStatus = "Starting..." := by
  refine ⟨rfl, ?_, rfl, rfl, rfl, rfl⟩
  simp [stopListening, greetingFailureState]

/-- C7 amended: calling `stop()` when `start()` never successfully completed
(no session held) does not throw and leaves the state exactly unchanged
(early return), so the status is left as `start()` left it: after a
permission denial, whose `catch` already turned listening off, the controller
stays idle — but not after a greeting failure (see the counterexample);
moreover `stop()` never throws from any state, and each optional-chained
release step is a safe no-op on an unacquired resource. -/
theorem c7_stop_unstarted (c : Controller) (hsession : c.sessionPromise = none) :
    stopListening c = Except.ok c ∧
    (∀ c2 : Controller, ∃ c', stopListening c2 = Except.ok c') ∧
    (∀ (m : String) (c' : Controller),
      startListening c (Except.ok ()) (Except.error m) = Except.ok c' →
      stopListening c' = Except.ok c' ∧ c'.isListening = false ∧
        c'.assistantStatus = "Mic permission needed.") ∧
    optRelease none = Except.ok () := by
  have h1 : stopListening c = Except.ok c := by
    simp [stopListening, hsession]
  refine ⟨h1, ?_, ?_, rfl⟩
  · intro c2
    cases hc : c2.sessionPromise with
    | none => exact ⟨c2, by simp [stopListening, hc]⟩
    | some s =>
      refine ⟨{ isListening := false, assistantStatus := "Click mic to start",
                sessionPromise := none, mediaStream := none, audioContext := none,
                scriptProcessor := none, outputAudioContext := none,
                audioSources := [], nextStartTime := 0 }, ?_⟩
      simp only [stopListening, hc, optRelease_ok]
      rfl
  · intro m c' h
    simp only [startListening, Except.ok.injEq] at h
    subst h
    refine ⟨?_, rfl, rfl⟩
    simp [stopListening, hsession]

/-- Witness for C7: `stop()` on the freshly mounted controller, where no
session was ever opened, returns the state unchanged without throwing. -/
theorem c7_stop_unstarted_witness :
    stopListening initialController = Except.ok initialController :=
  (c7_stop_unstarted initialController rfl).1

/-! ## Capture-conversion lemmas -/

/-- Truncation of a rational in `[-32768, 32768)` lands in the signed 16-bit
range. -/
lemma truncQ_bounds {y : Rat} (h1 : -32768 ≤ y) (h2 : y < 32768) :
    -32768 ≤ truncQ y ∧ truncQ y < 32768 := by
  unfold truncQ
  by_cases h0 : 0 ≤ y
  · rw [if_pos h0]
    have hf0 : (0 : Int) ≤ ⌊y⌋ := Int.le_floor.mpr (by exact_mod_cast h0)
    have hf1 : ⌊y⌋ < 32768 := Int.floor_lt.mpr (by exact_mod_cast h2)
    omega
  · rw [if_neg h0]
    push_neg at h0
    have hc0 : ⌈y⌉ ≤ 0 := Int.ceil_le.mpr (by exact_mod_cast h0.le)
    have hc1 : (-32768 : Int) ≤ ⌈y⌉ := by exact_mod_cast le_trans h1 (Int.le_ceil y)
    omega

/-- C8 counterexample: at the full-scale sample `1.0` the stored value is the
wrapped `-32768`, not the pure multiply-and-truncate result `32768`, because
the `Int16Array` assignment reduces modulo 2^16. -/
theorem c8_counterexample :
    captureSample 1 = -32768 ∧ truncQ ((1 : Rat) * 32768) = 32768 ∧
    captureSample 1 ≠ truncQ ((1 : Rat) * 32768) := by
  have h1 : (1 : Rat) * 32768 = 32768 := by norm_num
  have h2 : truncQ ((1 : Rat) * 32768) = 32768 := by
    rw [h1]
    unfold truncQ
    rw [if_pos (by norm_num)]
    decide
  have h3 : captureSample 1 = -32768 := by
    simp only [captureSample, toInt16, h2]
    decide
  exact ⟨h3, h2, by rw [h3, h2]; decide⟩

/-- C8 amended: for every sample in `[-1, 1)` the stored 16-bit value is
exactly multiply-by-32768-and-truncate (for the full-scale sample `1.0` it
wraps to `-32768`, see the counterexample), and every encoded chunk is handed
to the session tagged `audio/pcm;rate=16000`. -/
theorem c8_capture_conversion (x : Rat) (hlo : -1 ≤ x) (hhi : x < 1) :
    captureSample x = truncQ (x * 32768) ∧
    captureMimeType = "audio/pcm;rate=16000" := by
  refine ⟨?_, rfl⟩
  have hb : -32768 ≤ truncQ (x * 32768) ∧ truncQ (x * 32768) < 32768 := by
    apply truncQ_bounds
    · nlinarith
    · nlinarith
  obtain ⟨hb1, hb2⟩ := hb
  simp only [captureSample, toInt16]
  split_ifs with h <;> omega

/-- Witness for C8: the half-scale sample `1/2` stores the truncation of
`16384`. -/
theorem c8_capture_conversion_witness :
    captureSample (1 / 2) = truncQ ((1 / 2 : Rat) * 32768) ∧
    captureMimeType = "audio/pcm;rate=16000" :=
  c8_capture_conversion (1 / 2) (by norm_num) (by norm_num)

/-! ## Codec lemmas -/

/-- Encoding-alphabet characters map back through `hexVal` to their value. -/
lemma hexVal_digitChar : ∀ n, n < 16 → hexVal (Nat.digitChar n) = some n := by
  decide

/-- A character accepted by `hexVal` is the encoding of its value. -/
lemma digitChar_hexVal {c : Char} {n : Nat} (h : hexVal c = some n) :
    n < 16 ∧ Nat.digitChar n = c := by
  unfold hexVal at h
  split_ifs at h with h1 h2
  · obtain ⟨hc1, hc2⟩ := h1
    injection h with h
    subst h
    refine ⟨by omega, ?_⟩
    apply char_eq_of_toNat_eq
    obtain ⟨k, hk⟩ : ∃ k, c.toNat = k := ⟨_, rfl⟩
    rw [hk] at hc1 hc2 ⊢
    interval_cases k <;> decide
  · obtain ⟨hc1, hc2⟩ := h2
    injection h with h
    subst h
    refine ⟨by omega, ?_⟩
    apply char_eq_of_toNat_eq
    obtain ⟨k, hk⟩ : ∃ k, c.toNat = k := ⟨_, rfl⟩
    rw [hk] at hc1 hc2 ⊢
    interval_cases k <;> decide

/-- Decoding inverts encoding on byte sequences. -/
lemma decodeChars_encodeBytes : ∀ bs : List Nat, (∀ b ∈ bs, b < 256) →
    decodeChars (encodeBytes bs) = Except.ok bs := by
  intro bs
  induction bs with
  | nil => intro _; rfl
  | cons b rest ih =>
    intro hb
    have hb0 : b < 256 := hb b (List.mem_cons_self b rest)
    have h1 : hexVal (Nat.digitChar (b / 16)) = some (b / 16) :=
      hexVal_digitChar _ (by omega)
    have h2 : hexVal (Nat.digitChar (b % 16)) = some (b % 16) :=
      hexVal_digitChar _ (by omega)
    have h3 : decodeChars (encodeBytes rest) = Except.ok rest :=
      ih fun x hx => hb x (List.mem_cons_of_mem _ hx)
    have h4 : 16 * (b / 16) + b % 16 = b := by omega
    simp only [encodeBytes, decodeChars, h1, h2, h3, h4]

/-- Encoding inverts decoding: a successfully decoded character sequence is
the encoding of its bytes. -/
lemma encodeBytes_decodeChars : ∀ (cs : List Char) (bs : List Nat),
    decodeChars cs = Except.ok bs → encodeBytes bs = cs
  | [], bs, h => by
    simp only [decodeChars, Except.ok.injEq] at h
    subst h
    rfl
  | [c], bs, h => by
    simp only [decodeChars] at h
    exact Except.noConfusion h
  | c1 :: c2 :: rest, bs, h => by
    unfold decodeChars at h
    cases hv1 : hexVal c1 with
    | none =>
      rw [hv1] at h
      simp at h
    | some hnib =>
      cases hv2 : hexVal c2 with
      | none =>
        rw [hv1, hv2] at h
        simp at h
      | some lnib =>
        rw [hv1, hv2] at h
        cases hrest : decodeChars rest with
        | error e =>
          rw [hrest] at h
          simp at h
        | ok bs2 =>
          rw [hrest] at h
          simp only [Except.ok.injEq] at h
          subst h
          obtain ⟨hlt1, he1⟩ := digitChar_hexVal hv1
          obtain ⟨hlt2, he2⟩ := digitChar_hexVal hv2
          have hdiv : (16 * hnib + lnib) / 16 = hnib := by omega
          have hmod : (16 * hnib + lnib) % 16 = lnib := by omega
          rw [encodeBytes, hdiv, hmod, he1, he2,
            encodeBytes_decodeChars rest bs2 hrest]

/-- C9: the codec is lossless on its domain: decoding inverts encoding for
every byte sequence, encoding inverts decoding for every valid encoded text,
and decoding fails with `DecodeError` on every malformed text (one outside
the image of `encode`). -/
theorem c9_codec_round_trip :
    (∀ bytes : List Nat, (∀ b ∈ bytes, b < 256) →
      decode (encode bytes) = Except.ok bytes) ∧
    (∀ (text : String) (bytes : List Nat),
      decode text = Except.ok bytes → encode bytes = text) ∧
    (∀ text : String, (∀ bytes, encode bytes ≠ text) →
      decode text = Except.error DecodeError.malformed) := by
  have henc : ∀ (text : String) (bytes : List Nat),
      decode text = Except.ok bytes → encode bytes = text := by
    intro text bytes h
    cases text with
    | mk data => exact congrArg String.mk (encodeBytes_decodeChars data bytes h)
  refine ⟨?_, henc, ?_⟩
  · intro bytes hb
    exact decodeChars_encodeBytes bytes hb
  · intro text hne
    cases hd : decode text with
    | ok bs => exact absurd (henc text bs hd) (hne bs)
    | error e => cases e; rfl

/-- Witness for C9: the bytes 0, 171, 255 survive an encode-decode round
trip. -/
theorem c9_codec_round_trip_witness :
    decode (encode [0, 171, 255]) = Except.ok [0, 171, 255] :=
  c9_codec_round_trip.1 [0, 171, 255] (by decide)

/-! ## Lowercase-name invariant -/

/-- Store operations preserve the lowercase-name invariant: creation stores
the lowercased name, updates and deletions never write the name field. -/
lemma applyOp_lowercase {s : Store} (h : lowercaseNames s) (op : StoreOp) :
    lowercaseNames (applyOp s op) := by
  cases op with
  | add n q p =>
    simp only [applyOp, addItem, lowercaseNames]
    cases hf : findItemByName s n with
    | some ex =>
      simp only [hf]
      intro it hit
      obtain ⟨it0, hit0, rfl⟩ := List.mem_map.mp hit
      by_cases hid : it0.id = ex.id
      · simp only [if_pos hid]
        exact h it0 hit0
      · simp only [if_neg hid]
        exact h it0 hit0
    | none =>
      simp only [hf]
      intro it hit
      rcases List.mem_append.mp hit with h1 | h1
      · exact h it h1
      · rw [List.mem_singleton.mp h1]
        exact (toLowerCase_idem n).symm
  | remove n q =>
    simp only [applyOp, removeItem, lowercaseNames]
    cases hf : findItemByName s n with
    | none =>
      simp only [hf]
      exact h
    | some ex =>
      simp only [hf]
      by_cases hle : ex.quantity - q ≤ 0
      · simp only [if_pos hle]
        intro it hit
        exact h it (List.mem_filter.mp hit).1
      · simp only [if_neg hle]
        intro it hit
        obtain ⟨it0, hit0, rfl⟩ := List.mem_map.mp hit
        by_cases hid : it0.id = ex.id
        · simp only [if_pos hid]
          exact h it0 hit0
        · simp only [if_neg hid]
          exact h it0 hit0

/-- C10: starting from the empty store, after any sequence of add/remove
operations every stored record's name equals its own lowercase form:
`add_item` lowercases the name on creation and never rewrites it on update,
and `remove_item` never writes the name. -/
theorem c10_names_lowercase (ops : List StoreOp) :
    ∀ it ∈ (runOps emptyStore ops).items, it.name = toLowerCase it.name := by
  have key : ∀ (ops2 : List StoreOp) (s : Store), lowercaseNames s →
      lowercaseNames (runOps s ops2) := by
    intro ops2
    induction ops2 with
    | nil => intro s hs; exact hs
    | cons op rest ih =>
      intro s hs
      rw [runOps, List.foldl_cons]
      exact ih _ (applyOp_lowercase hs op)
  exact key ops emptyStore (by intro it hit; simp [emptyStore] at hit)

/-- Witness for C10: after adding "Bolt" to the empty store the stored record
is named "bolt", which equals its own lowercase form. -/
theorem c10_names_lowercase_witness :
    ({ id := 0, name := "bolt", quantity := 5, pricePerItem := 2 } :
        InventoryItem) ∈ (runOps emptyStore [StoreOp.add "Bolt" 5 2]).items ∧
    ({ id := 0, name := "bolt", quantity := 5, pricePerItem := 2 } :
        InventoryItem).name =
      toLowerCase ({ id := 0, name := "bolt", quantity := 5, pricePerItem := 2 } :
        InventoryItem).name :=
  ⟨by decide, c10_names_lowercase [StoreOp.add "Bolt" 5 2] _ (by decide)⟩

end StockPilot
